import Mathlib

/-!
Verification of the asset-state-tracking and decision-engine core of the
snowbroker trading bot.  Python floats are embedded as rationals (ℚ) and
`datetime` timestamps as their total-seconds value (ℚ); Python code that can
raise an exception is embedded with `Option` (`none` = the exception).
Sources: `src/src/sbi/asset.py`, `src/src/sbi/stats.py`,
`src/src/strats/thresh.py`, `src/src/strats/perbal.py`.
-/

/-- Trade action tag on a price data point.  The copy of `sbi/asset.py` under
`src/` constructs `PriceDataPoint` with only `price` and `timestamp`;
`strats/thresh.py` imports a `PriceDataPointAction` enum from `sbi.asset`
that is not present there.  Modelled from the spec: `action:
enum{NONE,BUY,SELL} (optional)` (§3 PricePoint). -/
inductive PriceDataPointAction where
  | NONE
  | BUY
  | SELL
deriving DecidableEq, Repr

/-- `PriceDataPoint` from `sbi/asset.py` (`price`, `timestamp`); the
`quantity` and `action` fields are the optional fields of the spec's
PricePoint (§3), used by `strats/thresh.py`.  The timestamp is embedded as
its total-seconds value (`timestamp_total_seconds`). -/
structure PriceDataPoint where
  price : ℚ
  timestamp : ℚ
  quantity : ℚ := 0
  action : PriceDataPointAction := .NONE
deriving DecidableEq, Repr

/-- The two-argument `PriceDataPoint(price, timestamp)` constructor of
`sbi/asset.py`: quantity and action take their defaults. -/
def PriceDataPoint.obs (price timestamp : ℚ) : PriceDataPoint :=
  { price := price, timestamp := timestamp }

/-- `Asset` from `sbi/asset.py`: name, symbol, quantity and the price
history array. -/
structure Asset where
  name : String
  symbol : String
  quantity : ℚ
  phistory : List PriceDataPoint := []
deriving DecidableEq, Repr

/-- `Asset.phistory_append` from `sbi/asset.py` (lines 79-96), acting on the
history list.  `cap` is the `config.asset_phistory_length` global (default
100).  The `phlen == 0` test in the source is the `getLast? = none` case
here.  Note the source evicts with `self.phistory.pop()`, which removes the
LAST list element, i.e. `dropLast` here. -/
def phistoryAppendList (cap : ℕ) (h : List PriceDataPoint)
    (pdp : PriceDataPoint) : List PriceDataPoint × Bool :=
  match h.getLast? with
  | none => (h ++ [pdp], true)
  | some latest =>
    if pdp.timestamp ≤ latest.timestamp then (h, false)
    else if h.length = cap then (h.dropLast ++ [pdp], true)
    else (h ++ [pdp], true)

/-- `Asset.phistory_append` lifted to the asset: mutates `self.phistory` and
returns the success flag. -/
def Asset.phistory_append (cap : ℕ) (a : Asset) (pdp : PriceDataPoint) :
    Asset × Bool :=
  let r := phistoryAppendList cap a.phistory pdp
  ({ a with phistory := r.1 }, r.2)

/-- `Asset.phistory_earliest` from `sbi/asset.py`. -/
def Asset.phistory_earliest (a : Asset) : Option PriceDataPoint :=
  a.phistory.head?

/-- `Asset.phistory_latest` from `sbi/asset.py`. -/
def Asset.phistory_latest (a : Asset) : Option PriceDataPoint :=
  a.phistory.getLast?

/-- `Asset.value` from `sbi/asset.py`: latest price times quantity, `0.0`
with no history. -/
def Asset.value (a : Asset) : ℚ :=
  match a.phistory.getLast? with
  | none => 0
  | some pdp => pdp.price * a.quantity

/-- The spec's PriceHistory invariant (§3): the stored sequence is strictly
increasing by timestamp. -/
def chron (h : List PriceDataPoint) : Prop :=
  h.Pairwise (fun p q => p.timestamp < q.timestamp)

instance (h : List PriceDataPoint) : Decidable (chron h) := by
  unfold chron
  infer_instance

/-- Replays a sequence of price points through `phistory_append` (dropping
the success flags), as `Asset.json_parse` and reconciliation do. -/
def appendAll (cap : ℕ) (a : Asset) (pdps : List PriceDataPoint) : Asset :=
  pdps.foldl (fun acc pdp => (acc.phistory_append cap pdp).1) a

/-- In a chronological history every member's timestamp is at most the last
element's timestamp. -/
theorem chron_ts_le_getLast (h : List PriceDataPoint) (hc : chron h)
    (la : PriceDataPoint) (hla : h.getLast? = some la) :
    ∀ p ∈ h, p.timestamp ≤ la.timestamp := by
  induction h with
  | nil => simp at hla
  | cons a t ih =>
    intro p hp
    cases t with
    | nil =>
      simp at hla hp
      simp [hp, hla]
    | cons b t2 =>
      rw [List.getLast?_cons_cons] at hla
      rcases List.mem_cons.mp hp with hpa | hpt
      · have hla_mem : la ∈ b :: t2 := List.mem_of_mem_getLast? hla
        have := (List.pairwise_cons.mp hc).1 la hla_mem
        subst hpa
        exact le_of_lt this
      · exact ih (List.pairwise_cons.mp hc).2 hla p hpt

/-- A successful, non-evicting append is plain concatenation; the other
cases of `phistoryAppendList`. -/
theorem phistoryAppendList_cases (cap : ℕ) (h : List PriceDataPoint)
    (pdp : PriceDataPoint) :
    (h.getLast? = none ∧ phistoryAppendList cap h pdp = (h ++ [pdp], true)) ∨
    (∃ la, h.getLast? = some la ∧ pdp.timestamp ≤ la.timestamp ∧
      phistoryAppendList cap h pdp = (h, false)) ∨
    (∃ la, h.getLast? = some la ∧ la.timestamp < pdp.timestamp ∧
      ((phistoryAppendList cap h pdp = (h.dropLast ++ [pdp], true)) ∨
        phistoryAppendList cap h pdp = (h ++ [pdp], true))) := by
  unfold phistoryAppendList
  cases hla : h.getLast? with
  | none => exact Or.inl ⟨rfl, rfl⟩
  | some la =>
    by_cases hle : pdp.timestamp ≤ la.timestamp
    · exact Or.inr (Or.inl ⟨la, rfl, hle, by simp [hle]⟩)
    · refine Or.inr (Or.inr ⟨la, rfl, lt_of_not_le hle, ?_⟩)
      by_cases hcap : h.length = cap
      · exact Or.inl (by simp [hle, hcap])
      · exact Or.inr (by simp [hle, hcap])

/-- The resulting history of any append ends in a point whose timestamp
dominates both the appended point's timestamp (on acceptance it IS the
appended point) and the previous latest timestamp. -/
theorem phistoryAppendList_getLast (cap : ℕ) (h : List PriceDataPoint)
    (pdp : PriceDataPoint) :
    ∃ la2, ((phistoryAppendList cap h pdp).1).getLast? = some la2 ∧
      pdp.timestamp ≤ la2.timestamp ∧
      ∀ la, h.getLast? = some la → la.timestamp ≤ la2.timestamp := by
  rcases phistoryAppendList_cases cap h pdp with ⟨hn, he⟩ | ⟨la, hla, hle, he⟩ |
    ⟨la, hla, hlt, he | he⟩
  · exact ⟨pdp, by simp [he, List.getLast?_concat], le_refl _,
      fun la hla => by rw [hn] at hla; exact absurd hla (by simp)⟩
  · exact ⟨la, by simp [he, hla], hle,
      fun la2 hla2 => by rw [hla] at hla2; injection hla2 with hh; rw [hh]⟩
  · exact ⟨pdp, by simp [he, List.getLast?_concat], le_refl _,
      fun la2 hla2 => by
        rw [hla] at hla2; injection hla2 with hh; rw [← hh]; exact le_of_lt hlt⟩
  · exact ⟨pdp, by simp [he, List.getLast?_concat], le_refl _,
      fun la2 hla2 => by
        rw [hla] at hla2; injection hla2 with hh; rw [← hh]; exact le_of_lt hlt⟩

/-- An append whose point is not later than the stored latest point is a
rejected no-op. -/
theorem phistoryAppendList_reject (cap : ℕ) (h : List PriceDataPoint)
    (pdp la : PriceDataPoint) (hla : h.getLast? = some la)
    (hle : pdp.timestamp ≤ la.timestamp) :
    phistoryAppendList cap h pdp = (h, false) := by
  unfold phistoryAppendList
  rw [hla]
  simp [hle]

/-- Appending preserves the strict timestamp ordering of the history. -/
theorem phistoryAppendList_chron (cap : ℕ) (h : List PriceDataPoint)
    (pdp : PriceDataPoint) (hc : chron h) :
    chron ((phistoryAppendList cap h pdp).1) := by
  rcases phistoryAppendList_cases cap h pdp with ⟨hn, he⟩ | ⟨la, hla, hle, he⟩ |
    ⟨la, hla, hlt, he | he⟩
  · have hnil : h = [] := List.getLast?_eq_none_iff.mp hn
    rw [he, hnil]
    exact List.pairwise_singleton _ _
  · rw [he]
    exact hc
  · rw [he]
    refine List.pairwise_append.mpr ⟨hc.sublist (List.dropLast_sublist h),
      List.pairwise_singleton _ _, ?_⟩
    intro x hx y hy
    rw [List.mem_singleton.mp hy]
    calc x.timestamp ≤ la.timestamp :=
          chron_ts_le_getLast h hc la hla x ((List.dropLast_sublist h).mem hx)
      _ < pdp.timestamp := hlt
  · rw [he]
    refine List.pairwise_append.mpr ⟨hc, List.pairwise_singleton _ _, ?_⟩
    intro x hx y hy
    rw [List.mem_singleton.mp hy]
    calc x.timestamp ≤ la.timestamp := chron_ts_le_getLast h hc la hla x hx
      _ < pdp.timestamp := hlt

/-- Claim C2: `phistory_append` preserves the strictly-increasing-timestamp
invariant, and a point whose timestamp is at most the latest stored
timestamp is rejected: the call returns `false` and the asset (length and
contents of the history included) is completely unchanged. -/
theorem phistory_append_ordering (cap : ℕ) (a : Asset) (pdp : PriceDataPoint)
    (hc : chron a.phistory) :
    chron ((a.phistory_append cap pdp).1).phistory ∧
      (∀ la, a.phistory.getLast? = some la → pdp.timestamp ≤ la.timestamp →
        a.phistory_append cap pdp = (a, false)) := by
  constructor
  · exact phistoryAppendList_chron cap a.phistory pdp hc
  · intro la hla hle
    unfold Asset.phistory_append
    rw [phistoryAppendList_reject cap a.phistory pdp la hla hle]

/-- Witness for C2 at a concrete input: history `[(10, t=1), (20, t=2)]` and
a stale point at `t=2` is rejected without mutation. -/
theorem phistory_append_ordering_witness :
    (Asset.phistory_append 100
            ⟨"A", "A", 1, [.obs 10 1, .obs 20 2]⟩ (.obs 30 2)) =
        (⟨"A", "A", 1, [.obs 10 1, .obs 20 2]⟩, false) :=
  (phistory_append_ordering 100 ⟨"A", "A", 1, [.obs 10 1, .obs 20 2]⟩ (.obs 30 2)
      (by decide)).2 (.obs 20 2) (by decide) (by decide)

/-- Claim C1 (code bug): with capacity 3, appending points at t=1,2,3,4 with
prices 10,20,30,40 yields `[(10,t1),(20,t2),(40,t4)]`, NOT the
`[(20,t2),(30,t3),(40,t4)]` required by oldest-first FIFO eviction: the
source's `self.phistory.pop()` removes the LAST (newest) retained element,
although its own comment says "we'll remove the oldest entry". -/
theorem phistory_append_evicts_newest :
    (appendAll 3 ⟨"A", "A", 1, []⟩
        [.obs 10 1, .obs 20 2, .obs 30 3, .obs 40 4]).phistory.map
        (fun p => (p.price, p.timestamp)) =
      [(10, 1), (20, 2), (40, 4)] := by
  decide

/-- `AssetGroup` from `sbi/asset.py`: a named list of assets. -/
structure AssetGroup where
  name : String
  assets : List Asset := []
deriving DecidableEq, Repr

/-- `AssetGroup.search` from `sbi/asset.py`: first asset with the given
symbol, `None` when absent. -/
def AssetGroup.search (g : AssetGroup) (symbol : String) : Option Asset :=
  g.assets.find? (fun a => a.symbol == symbol)

/-- The merge loop of `AssetGroup.update` (lines 225-226 of
`sbi/asset.py`): each incoming point is offered to the existing asset's
`phistory_append`, which silently drops already-seen points; this is
exactly `appendAll`. -/
def updateAssets (cap : ℕ) (l : List Asset) (a : Asset) : List Asset :=
  match l with
  | [] => [a]
  | x :: xs =>
    if x.symbol = a.symbol then appendAll cap x a.phistory :: xs
    else x :: updateAssets cap xs a

/-- `AssetGroup.update` from `sbi/asset.py` (lines 218-231): merge the
incoming asset's history into the first asset with the same symbol, or
append the incoming asset when the symbol is new.  (The source always
returns `IR(True)`; only the state change is modelled.) -/
def AssetGroup.update (cap : ℕ) (g : AssetGroup) (a : Asset) : AssetGroup :=
  { g with assets := updateAssets cap g.assets a }

/-- `AssetGroup.value` from `sbi/asset.py`: sum of member values. -/
def AssetGroup.value (g : AssetGroup) : ℚ :=
  if g.assets.length = 0 then 0
  else g.assets.foldl (fun s a => s + a.value) 0

/-- Python float division, which raises `ZeroDivisionError` on a zero
divisor (`none` here). -/
def pydiv (a b : ℚ) : Option ℚ :=
  if b = 0 then none else some (a / b)

/-- `AssetGroup.percents` from `sbi/asset.py` (lines 310-319): empty dict
for an empty group, otherwise each member's `value / total`.  The source
has NO zero-total guard, so a non-empty group of total value 0 raises
`ZeroDivisionError` (`none`).  The Python dict is embedded as the
association list in iteration order. -/
def percentsList (total : ℚ) (l : List Asset) : Option (List (String × ℚ)) :=
  match l with
  | [] => some []
  | a :: t =>
    match pydiv a.value total with
    | none => none
    | some q =>
      match percentsList total t with
      | none => none
      | some r => some ((a.symbol, q) :: r)

def AssetGroup.percents (g : AssetGroup) : Option (List (String × ℚ)) :=
  if g.assets.length = 0 then some []
  else percentsList g.value g.assets

/-- Modelled from the spec: `AssetGroup.remove(symbol)` "drops an asset no
longer reported by the upstream source" (§4.3).  It is called at
`strats/thresh.py:436` and `strats/perbal.py:244` but no `remove` method
appears in `src/sbi/asset.py`. -/
def AssetGroup.remove (g : AssetGroup) (symbol : String) : AssetGroup :=
  { g with assets := g.assets.filter (fun a => a.symbol != symbol) }

/-- The list-level merge loop on raw histories. -/
def mergeList (cap : ℕ) (h : List PriceDataPoint)
    (pts : List PriceDataPoint) : List PriceDataPoint :=
  pts.foldl (fun acc p => (phistoryAppendList cap acc p).1) h

/-- `appendAll` only rewrites the price history, through `mergeList`. -/
theorem appendAll_eq (cap : ℕ) (a : Asset) (pts : List PriceDataPoint) :
    appendAll cap a pts = { a with phistory := mergeList cap a.phistory pts } := by
  induction pts generalizing a with
  | nil => simp [appendAll, mergeList]
  | cons p rest ih =>
    show appendAll cap ((a.phistory_append cap p).1) rest = _
    rw [ih]
    simp [Asset.phistory_append, mergeList]

/-- After merging, the history ends in a point whose timestamp dominates
the previous latest timestamp and every merged point's timestamp. -/
theorem mergeList_getLast (cap : ℕ) (pts : List PriceDataPoint) :
    ∀ h la, h.getLast? = some la →
      ∃ la2, (mergeList cap h pts).getLast? = some la2 ∧
        la.timestamp ≤ la2.timestamp ∧
        ∀ p ∈ pts, p.timestamp ≤ la2.timestamp := by
  induction pts with
  | nil =>
    intro h la hla
    exact ⟨la, hla, le_refl _, by simp⟩
  | cons p rest ih =>
    intro h la hla
    obtain ⟨m, hm, hpm, hlam⟩ := phistoryAppendList_getLast cap h p
    obtain ⟨la2, hla2, hmla2, hrest⟩ := ih ((phistoryAppendList cap h p).1) m hm
    refine ⟨la2, hla2, le_trans (hlam la hla) hmla2, ?_⟩
    intro q hq
    rcases List.mem_cons.mp hq with hqp | hqrest
    · rw [hqp]; exact le_trans hpm hmla2
    · exact hrest q hqrest

/-- Merging a non-empty batch leaves a latest point dominating the whole
batch, whatever the starting history. -/
theorem mergeList_dominates (cap : ℕ) (pts : List PriceDataPoint)
    (hne : pts ≠ []) (h : List PriceDataPoint) :
    ∃ la2, (mergeList cap h pts).getLast? = some la2 ∧
      ∀ p ∈ pts, p.timestamp ≤ la2.timestamp := by
  cases pts with
  | nil => exact absurd rfl hne
  | cons p rest =>
    obtain ⟨m, hm, hpm, _⟩ := phistoryAppendList_getLast cap h p
    obtain ⟨la2, hla2, hmla2, hrest⟩ :=
      mergeList_getLast cap rest ((phistoryAppendList cap h p).1) m hm
    refine ⟨la2, hla2, ?_⟩
    intro q hq
    rcases List.mem_cons.mp hq with hqp | hqrest
    · rw [hqp]; exact le_trans hpm hmla2
    · exact hrest q hqrest

/-- A batch wholly at or before the stored latest timestamp is silently
dropped: the merge is a no-op. -/
theorem mergeList_absorbed (cap : ℕ) (pts : List PriceDataPoint) :
    ∀ h la, h.getLast? = some la →
      (∀ p ∈ pts, p.timestamp ≤ la.timestamp) →
      mergeList cap h pts = h := by
  induction pts with
  | nil => intro h la _ _; rfl
  | cons p rest ih =>
    intro h la hla hall
    show mergeList cap ((phistoryAppendList cap h p).1) rest = h
    rw [phistoryAppendList_reject cap h p la hla (hall p (List.mem_cons_self p rest))]
    exact ih h la hla (fun q hq => hall q (List.mem_cons_of_mem p hq))

/-- Re-merging the same batch is a no-op. -/
theorem mergeList_idem (cap : ℕ) (h pts : List PriceDataPoint) :
    mergeList cap (mergeList cap h pts) pts = mergeList cap h pts := by
  cases hpts : pts with
  | nil => rfl
  | cons p rest =>
    obtain ⟨la2, hla2, hdom⟩ := mergeList_dominates cap pts (by simp [hpts]) h
    rw [← hpts]
    exact mergeList_absorbed cap pts (mergeList cap h pts) la2 hla2 hdom

/-- Re-playing an asset's whole batch through `appendAll` twice changes
nothing after the first time. -/
theorem appendAll_idem (cap : ℕ) (x : Asset) (pts : List PriceDataPoint) :
    appendAll cap (appendAll cap x pts) pts = appendAll cap x pts := by
  simp only [appendAll_eq]
  simp [mergeList_idem]

/-- Re-playing a chronological history into its own asset is a no-op. -/
theorem appendAll_self_absorbed (cap : ℕ) (a : Asset)
    (hc : chron a.phistory) : appendAll cap a a.phistory = a := by
  rw [appendAll_eq]
  have habs : mergeList cap a.phistory a.phistory = a.phistory := by
    cases hla : a.phistory.getLast? with
    | none => rw [List.getLast?_eq_none_iff.mp hla]; rfl
    | some la =>
      exact mergeList_absorbed cap a.phistory a.phistory la hla
        (chron_ts_le_getLast a.phistory hc la hla)
  rw [habs]

/-- When no stored asset carries the incoming symbol, update is insertion
at the end. -/
theorem updateAssets_no_match (cap : ℕ) (l : List Asset) (a : Asset)
    (h : ∀ x ∈ l, x.symbol ≠ a.symbol) :
    updateAssets cap l a = l ++ [a] := by
  induction l with
  | nil => rfl
  | cons x xs ih =>
    have hx : x.symbol ≠ a.symbol := h x (List.mem_cons_self x xs)
    simp only [updateAssets, if_neg hx]
    rw [ih (fun y hy => h y (List.mem_cons_of_mem x hy))]
    rfl

/-- Claim C3: `AssetGroup.update` is idempotent.  For an asset record whose
history satisfies the chronological invariant, applying `update` with the
same record a second time leaves the whole group state (members, order,
histories, quantities) exactly as after the first application. -/
theorem update_idempotent (cap : ℕ) (g : AssetGroup) (a : Asset)
    (hc : chron a.phistory) :
    (g.update cap a).update cap a = g.update cap a := by
  show AssetGroup.mk g.name (updateAssets cap (updateAssets cap g.assets a) a) =
    AssetGroup.mk g.name (updateAssets cap g.assets a)
  congr 1
  induction g.assets with
  | nil =>
    show updateAssets cap [a] a = [a]
    simp [updateAssets, appendAll_self_absorbed cap a hc]
  | cons x xs ih =>
    by_cases hx : x.symbol = a.symbol
    · simp only [updateAssets, if_pos hx]
      have hsym : (appendAll cap x a.phistory).symbol = a.symbol := by
        rw [appendAll_eq]; exact hx
      simp only [updateAssets, if_pos hsym]
      rw [appendAll_idem]
    · simp only [updateAssets, if_neg hx]
      rw [ih]

/-- Witness for C3 at a concrete input: inserting a fresh asset with the
chronological history `[(10,t1),(20,t2)]` twice equals inserting it
once. -/
theorem update_idempotent_witness :
    ((AssetGroup.mk "g" []).update 100
          ⟨"AMZN", "AMZN", 2, [.obs 10 1, .obs 20 2]⟩).update 100
        ⟨"AMZN", "AMZN", 2, [.obs 10 1, .obs 20 2]⟩ =
      (AssetGroup.mk "g" []).update 100
        ⟨"AMZN", "AMZN", 2, [.obs 10 1, .obs 20 2]⟩ :=
  update_idempotent 100 (AssetGroup.mk "g" [])
    ⟨"AMZN", "AMZN", 2, [.obs 10 1, .obs 20 2]⟩ (by decide)

/-- Claim C9: for every group containing an asset with the given symbol,
`remove(symbol)` drops that asset — the symbol no longer resolves via
`search` — and a record is retained exactly when it was a member and does
not carry the removed symbol. -/
theorem remove_drops_symbol (g : AssetGroup) (s : String)
    (_hmem : (g.search s).isSome) :
    (g.remove s).search s = none ∧
      ∀ a, (a ∈ (g.remove s).assets ↔ a ∈ g.assets ∧ a.symbol ≠ s) := by
  constructor
  · simp [AssetGroup.search, AssetGroup.remove, List.find?_eq_none,
      List.mem_filter]
  · intro a
    simp [AssetGroup.remove, List.mem_filter]

/-- Witness for C9 at a concrete input: removing "AMZN" from a two-member
group empties the symbol's lookup and keeps the "TSLA" member. -/
theorem remove_drops_symbol_witness :
    ((AssetGroup.mk "g" [⟨"Amazon", "AMZN", 1, []⟩, ⟨"Tesla", "TSLA", 2, []⟩]).remove
          "AMZN").search "AMZN" = none ∧
      (Asset.mk "Tesla" "TSLA" 2 [] ∈
          ((AssetGroup.mk "g" [⟨"Amazon", "AMZN", 1, []⟩,
              ⟨"Tesla", "TSLA", 2, []⟩]).remove "AMZN").assets ↔
        Asset.mk "Tesla" "TSLA" 2 [] ∈
            [Asset.mk "Amazon" "AMZN" 1 [], Asset.mk "Tesla" "TSLA" 2 []] ∧
          (Asset.mk "Tesla" "TSLA" 2 []).symbol ≠ "AMZN") :=
  have h := remove_drops_symbol
    (AssetGroup.mk "g" [⟨"Amazon", "AMZN", 1, []⟩, ⟨"Tesla", "TSLA", 2, []⟩])
    "AMZN" (by decide)
  ⟨h.1, h.2 (Asset.mk "Tesla" "TSLA" 2 [])⟩

/-- Claim C4 (counterexample): a non-empty group whose total value is 0 —
here one asset with no price history — makes `percents()` raise
`ZeroDivisionError` (`none`) instead of returning a zero percent. -/
theorem percents_zero_total_cex :
    AssetGroup.value (AssetGroup.mk "g" [⟨"Amazon", "AMZN", 0, []⟩]) = 0 ∧
      AssetGroup.percents (AssetGroup.mk "g" [⟨"Amazon", "AMZN", 0, []⟩]) =
        none := by
  constructor
  · norm_num [AssetGroup.value, Asset.value]
  · simp [AssetGroup.percents, percentsList, pydiv, AssetGroup.value, Asset.value]

/-- Claim C4 as amended: `percents()` returns the empty mapping on an empty
group and `{symbol: 1.0}` on a one-asset group of positive value, but on a
non-empty group of total value 0 it fails with a division error (`none`)
rather than defining the percents as 0. -/
theorem percents_amended (g : AssetGroup) :
    (g.assets = [] → g.percents = some []) ∧
    (∀ a, g.assets = [a] → 0 < a.value → g.percents = some [(a.symbol, 1)]) ∧
    (g.assets ≠ [] → g.value = 0 → g.percents = none) := by
  refine ⟨?_, ?_, ?_⟩
  · intro h
    simp [AssetGroup.percents, h]
  · intro a h hv
    have hne : a.value ≠ 0 := ne_of_gt hv
    have hval : g.value = a.value := by simp [AssetGroup.value, h]
    simp [AssetGroup.percents, percentsList, h, hval, pydiv, hne, div_self hne]
  · intro hne hz
    obtain ⟨b, t, hbt⟩ := List.exists_cons_of_ne_nil hne
    simp [AssetGroup.percents, percentsList, hbt, pydiv, hz]

/-- Witness for C4 at a concrete input: one asset worth 5 × 2 = 10 gives
the full mapping `{AMZN: 1.0}`. -/
theorem percents_amended_witness :
    AssetGroup.percents
        (AssetGroup.mk "g" [⟨"Amazon", "AMZN", 2, [.obs 5 1]⟩]) =
      some [("AMZN", 1)] :=
  (percents_amended
      (AssetGroup.mk "g" [⟨"Amazon", "AMZN", 2, [.obs 5 1]⟩])).2.1
    ⟨"Amazon", "AMZN", 2, [.obs 5 1]⟩ rfl (by norm_num [Asset.value, PriceDataPoint.obs])

/-- List-level frame property of `update` when the incoming symbol is
already present: the member list keeps its shape, the matched record keeps
its name, symbol and quantity, and every non-matching record is untouched. -/
theorem updateAssets_frame (cap : ℕ) (a : Asset) :
    ∀ l : List Asset, (∃ x ∈ l, x.symbol = a.symbol) →
      List.Forall₂ (fun x y => y.name = x.name ∧ y.symbol = x.symbol ∧
          y.quantity = x.quantity ∧ (x.symbol ≠ a.symbol → y = x))
        l (updateAssets cap l a) := by
  intro l
  induction l with
  | nil => intro h; simp at h
  | cons x xs ih =>
    intro hmem
    by_cases hx : x.symbol = a.symbol
    · simp only [updateAssets, if_pos hx]
      refine List.Forall₂.cons ?_ ?_
      · rw [appendAll_eq]
        exact ⟨rfl, rfl, rfl, fun hne => absurd hx hne⟩
      · exact List.forall₂_same.mpr (fun y hy => ⟨rfl, rfl, rfl, fun hh => rfl⟩)
    · simp only [updateAssets, if_neg hx]
      refine List.Forall₂.cons ⟨rfl, rfl, rfl, fun hh => rfl⟩ ?_
      rcases hmem with ⟨z, hz, hzs⟩
      rcases List.mem_cons.mp hz with hzx | hzxs
      · exact absurd (hzx ▸ hzs) hx
      · exact ih ⟨z, hzxs, hzs⟩

/-- Claim C10: when the incoming record's symbol is already present,
`update` only rewrites the matched record's price history: the group keeps
its length and member order, the matched record keeps its symbol, name and
quantity (the incoming quantity is never copied), and every other member is
unchanged. -/
theorem update_frame (cap : ℕ) (g : AssetGroup) (a : Asset)
    (hmem : ∃ x ∈ g.assets, x.symbol = a.symbol) :
    ((g.update cap a).assets).length = g.assets.length ∧
      List.Forall₂ (fun x y => y.name = x.name ∧ y.symbol = x.symbol ∧
          y.quantity = x.quantity ∧ (x.symbol ≠ a.symbol → y = x))
        g.assets ((g.update cap a).assets) :=
  have h2 := updateAssets_frame cap a g.assets hmem
  ⟨h2.length_eq.symm, h2⟩

/-- Witness for C10 at a concrete input: merging an "AMZN" record with a
different quantity into a two-member group. -/
theorem update_frame_witness :
    (((AssetGroup.mk "g" [⟨"Amazon", "AMZN", 1, [.obs 10 1]⟩,
          ⟨"Tesla", "TSLA", 2, []⟩]).update 100
        ⟨"Amazon", "AMZN", 7, [.obs 20 2]⟩).assets).length =
      [Asset.mk "Amazon" "AMZN" 1 [.obs 10 1],
        Asset.mk "Tesla" "TSLA" 2 []].length ∧
      List.Forall₂ (fun x y => y.name = x.name ∧ y.symbol = x.symbol ∧
          y.quantity = x.quantity ∧
          (x.symbol ≠ (Asset.mk "Amazon" "AMZN" 7 [.obs 20 2]).symbol → y = x))
        [Asset.mk "Amazon" "AMZN" 1 [.obs 10 1], Asset.mk "Tesla" "TSLA" 2 []]
        (((AssetGroup.mk "g" [⟨"Amazon", "AMZN", 1, [.obs 10 1]⟩,
            ⟨"Tesla", "TSLA", 2, []⟩]).update 100
          ⟨"Amazon", "AMZN", 7, [.obs 20 2]⟩).assets) :=
  update_frame 100
    (AssetGroup.mk "g" [⟨"Amazon", "AMZN", 1, [.obs 10 1]⟩,
      ⟨"Tesla", "TSLA", 2, []⟩])
    ⟨"Amazon", "AMZN", 7, [.obs 20 2]⟩ (by decide)

/-- Python's `round` on the idealized (rational) value: round half to
even at the integer level. -/
def roundHalfEven (x : ℚ) : ℤ :=
  let f := ⌊x⌋
  if x - f < 1 / 2 then f
  else if 1 / 2 < x - f then f + 1
  else if f % 2 = 0 then f else f + 1

/-- Python's `round(x, n)`: round half to even at `n` decimal digits. -/
def pyRound (x : ℚ) (n : ℕ) : ℚ :=
  (roundHalfEven (x * 10 ^ n) : ℚ) / 10 ^ n

/-- `ror` from `sbi/stats.py` (lines 21-23): simple rate of return with the
begin-value zero guard (`0.0` is replaced by `0.00001` before dividing). -/
def ror (b e : ℚ) : ℚ :=
  let b2 := if b = 0 then 1 / 100000 else b
  pyRound (((e - b2) / b2) * 100) 4

/-- Modelled from the spec: AssetRecord's "rate of return" (§3) applies
`ror` to the earliest and latest points of the record's history.  `ror`
itself is `src/src/sbi/stats.py` lines 21-23, but no code under `src/`
wires it to a history's earliest/latest pair. -/
def historyROR (h : List PriceDataPoint) : ℚ :=
  match h.head?, h.getLast? with
  | some pe, some pl => ror pe.price pl.price
  | _, _ => 0

/-- Claim C8 (counterexample): a single-point history whose price is
exactly `0.0` has rate of return `-100.0`, not `0.0`: the zero guard
replaces only the BEGIN price by `0.00001`, the end price stays `0`. -/
theorem ror_zero_price_single_point_cex :
    historyROR [.obs 0 5] = -100 ∧ (-100 : ℚ) ≠ 0 := by
  constructor
  · norm_num [historyROR, ror, pyRound, roundHalfEven, PriceDataPoint.obs]
  · norm_num

/-- Claim C8 as amended: the rate of return of a history is
`round(((latest.price - b) / b) * 100, 4)` with `b` the earliest price
(replaced by `0.00001` when it is exactly `0`), and a single-point history
of NONZERO price has rate of return `0.0`. -/
theorem ror_amended :
    (∀ h pe pl, h.head? = some pe → h.getLast? = some pl →
      historyROR h =
        pyRound (((pl.price - (if pe.price = 0 then 1 / 100000 else pe.price)) /
          (if pe.price = 0 then 1 / 100000 else pe.price)) * 100) 4) ∧
    (∀ p : PriceDataPoint, p.price ≠ 0 → historyROR [p] = 0) := by
  constructor
  · intro h pe pl hpe hpl
    simp [historyROR, hpe, hpl, ror]
  · intro p hp
    simp [historyROR, ror, hp]
    norm_num [pyRound, roundHalfEven]

/-- Witness for C8's amended statement at a concrete input: a single point
of price 5 has rate of return 0. -/
theorem ror_amended_witness : historyROR [PriceDataPoint.obs 5 1] = 0 :=
  ror_amended.2 (PriceDataPoint.obs 5 1) (by norm_num [PriceDataPoint.obs])

/-- `TradeOrderAction` from `sbi/api.py` as used by the strategies. -/
inductive TradeOrderAction where
  | BUY
  | SELL
deriving DecidableEq, Repr

/-- An order intent as built by the strategies (`TradeOrder(symbol, action,
value)`): a symbol, a side and a notional dollar value. -/
structure TradeOrder where
  symbol : String
  action : TradeOrderAction
  value : ℚ
deriving DecidableEq, Repr

/-- The module-level strategy parameters of `strats/thresh.py` (lines
29-35), overridable by `config_load`. -/
structure TStratConfig where
  base_buy : ℚ := 20
  thresh_buy : ℚ := 1 / 100
  thresh_sell : ℚ := 1 / 100
  order_cooldown : ℚ := 43200
  history_minimum : ℕ := 8
  buy_streak_maximum : ℕ := 4
deriving DecidableEq, Repr

/-- `AssetData` from `strats/thresh.py` (lines 52-92): an asset plus its
transaction (fill) history. -/
structure AssetData where
  asset : Asset
  thistory : List PriceDataPoint := []
deriving DecidableEq, Repr

/-- `AssetData.thistory_latest` from `strats/thresh.py`. -/
def AssetData.thistory_latest (ad : AssetData) : Option PriceDataPoint :=
  ad.thistory.getLast?

/-- `AssetData.thistory_latest_buy` from `strats/thresh.py`: backward scan
for the most recent BUY fill. -/
def AssetData.thistory_latest_buy (ad : AssetData) : Option PriceDataPoint :=
  ad.thistory.reverse.find? (fun p => p.action == PriceDataPointAction.BUY)

/-- `AssetData.thistory_latest_sell` from `strats/thresh.py`: backward scan
for the most recent SELL fill. -/
def AssetData.thistory_latest_sell (ad : AssetData) : Option PriceDataPoint :=
  ad.thistory.reverse.find? (fun p => p.action == PriceDataPointAction.SELL)

/-- Modelled from the spec: `min() -> Option<PricePoint>` (by price), none
on an empty history (§4.1).  `strats/thresh.py` calls
`Asset.phistory_min`, which is absent from the copy of `sbi/asset.py`
under `src/`.  Ties keep the earlier point; the callers only compare the
minimum's and maximum's prices, so the tie choice is unobservable. -/
def Asset.phistory_min (a : Asset) : Option PriceDataPoint :=
  match a.phistory with
  | [] => none
  | p :: rest => some (rest.foldl (fun q r => if r.price < q.price then r else q) p)

/-- Modelled from the spec: `max() -> Option<PricePoint>` (by price), none
on an empty history (§4.1); see `Asset.phistory_min`. -/
def Asset.phistory_max (a : Asset) : Option PriceDataPoint :=
  match a.phistory with
  | [] => none
  | p :: rest => some (rest.foldl (fun q r => if q.price < r.price then r else q) p)

/-- Modelled from the spec: `strats/thresh.py` compares
`amin.value() == amax.value()` on price data points; the spec words this
state as `min.price == max.price` (no observed price variance, §4.5), so a
point's `value()` is its price. -/
def PriceDataPoint.value (p : PriceDataPoint) : ℚ :=
  p.price

/-- The streak loop of `TStrat.tick` (lines 228-239 of `strats/thresh.py`)
over the reversed transaction history: count consecutive trailing BUYs
(respectively non-BUYs) until the other kind has been seen. -/
def streakLoop : List PriceDataPoint → ℕ → ℕ → ℕ × ℕ
  | [], b, s => (b, s)
  | p :: rest, b, s =>
    if p.action = PriceDataPointAction.BUY then
      (if s > 0 then (b, s) else streakLoop rest (b + 1) s)
    else
      (if b > 0 then (b, s) else streakLoop rest b (s + 1))

/-- `threshold_price_lower` of `TStrat.tick` (line 255): built from the
latest sell, falling back to the latest buy (line 249), else `0.0`. -/
def tLower (cfg : TStratConfig) (ad : AssetData) : ℚ :=
  match (match ad.thistory_latest_sell with
         | none => ad.thistory_latest_buy
         | some p => some p) with
  | some p => p.price * (1 - cfg.thresh_buy)
  | none => 0

/-- `threshold_price_upper` of `TStrat.tick` (line 256): built from the
latest buy, else a sentinel of one billion. -/
def tUpper (cfg : TStratConfig) (ad : AssetData) : ℚ :=
  match ad.thistory_latest_buy with
  | some p => p.price * (1 + cfg.thresh_sell)
  | none => 1000000000

/-- The per-asset decision of `TStrat.tick` (lines 204-385 of
`strats/thresh.py`): the zero-or-one order intent emitted for one asset on
one tick, at wall-clock time `now` (seconds).  Branches in source order:
order cooldown (lines 258-268), the no-shares-owned case (lines 270-282),
the history-minimum and no-variance holds (lines 323-335), the BUY branch
with the buy-streak limit (lines 337-356), the SELL branch with the
doubling, quantity clamp and $1 floor (lines 358-381), else hold.  The
final wildcard arm models line 332's attribute access on a missing
minimum/maximum, reachable only when `history_minimum = 0` and the price
history is empty. -/
def tickAsset (cfg : TStratConfig) (now : ℚ) (ad : AssetData) :
    Option TradeOrder :=
  let own_shares := 0 < ad.asset.quantity
  let no_history := ad.asset.phistory_min = none ∨ ad.asset.phistory_max = none ∨
    ad.asset.phistory_latest = none
  let buy_streak := (streakLoop ad.thistory.reverse 0 0).1
  let cooldown_hold : Bool :=
    match ad.thistory.getLast? with
    | some ltran => decide (now - ltran.timestamp < cfg.order_cooldown)
    | none => false
  if cooldown_hold then none
  else if ¬own_shares ∨ ad.thistory_latest_buy = none then
    (if no_history ∨ ad.asset.quantity = 0 then
      some ⟨ad.asset.symbol, .BUY, cfg.base_buy⟩
    else none)
  else if ad.asset.phistory.length < cfg.history_minimum then none
  else
    match ad.asset.phistory_min, ad.asset.phistory_max, ad.asset.phistory_latest with
    | some amin, some amax, some acurr =>
      if amin.value = amax.value then none
      else if acurr.price ≤ tLower cfg ad then
        (if buy_streak ≥ cfg.buy_streak_maximum then none
        else some ⟨ad.asset.symbol, .BUY, cfg.base_buy⟩)
      else if acurr.price ≥ tUpper cfg ad then
        let s0 := if acurr.price ≥ tUpper cfg ad * 2 then cfg.base_buy * 2
          else cfg.base_buy
        let amt := max 0 (pyRound (min (acurr.price * ad.asset.quantity) s0 - 1) 2)
        if amt = 0 then none else some ⟨ad.asset.symbol, .SELL, amt⟩
      else none
    | _, _, _ => none

/-- The `no_history` flag of `TStrat.tick` (line 215) is equivalent to an
empty price history. -/
theorem no_history_iff (a : Asset) :
    (a.phistory_min = none ∨ a.phistory_max = none ∨
      a.phistory_latest = none) ↔ a.phistory = [] := by
  cases h : a.phistory with
  | nil =>
    simp [Asset.phistory_min, Asset.phistory_max, Asset.phistory_latest, h]
  | cons p rest =>
    simp [Asset.phistory_min, Asset.phistory_max, Asset.phistory_latest, h]

/-- Claim C6 (counterexample): an asset with owned quantity 0 and no price
history, whose transaction history holds a BUY fill from the current
instant, is held (no intent) because the order-cooldown check runs BEFORE
the no-shares-owned case — the claim's "before and regardless of the other
checks (cooldown, ...)" fails. -/
theorem tick_cooldown_blocks_noposition_cex :
    (AssetData.mk ⟨"Amazon", "AMZN", 0, []⟩
        [⟨10, 1000, 1, .BUY⟩]).asset.quantity = 0 ∧
      tickAsset {} 1000
        (AssetData.mk ⟨"Amazon", "AMZN", 0, []⟩ [⟨10, 1000, 1, .BUY⟩]) =
        none := by
  constructor
  · rfl
  · norm_num [tickAsset]

/-- Claim C6 as amended: AFTER the order-cooldown check passes (no fill
within the cooldown window), an asset with owned quantity ≤ 0 or without
any BUY fill is finished before the history-minimum and threshold checks:
a BUY intent for the configured base amount is emitted exactly when the
asset also has an empty price history or quantity exactly 0, and nothing
is emitted otherwise. -/
theorem tick_noposition_amended (cfg : TStratConfig) (now : ℚ) (ad : AssetData)
    (hcool : ∀ lt, ad.thistory.getLast? = some lt →
      cfg.order_cooldown ≤ now - lt.timestamp)
    (hnp : ad.asset.quantity ≤ 0 ∨ ad.thistory_latest_buy = none) :
    tickAsset cfg now ad =
      if ad.asset.phistory = [] ∨ ad.asset.quantity = 0 then
        some ⟨ad.asset.symbol, .BUY, cfg.base_buy⟩
      else none := by
  have hch : (match ad.thistory.getLast? with
      | some ltran => decide (now - ltran.timestamp < cfg.order_cooldown)
      | none => false) = false := by
    cases hlt : ad.thistory.getLast? with
    | none => rfl
    | some lt => simpa using not_lt.mpr (hcool lt hlt)
  have hnp2 : ¬0 < ad.asset.quantity ∨ ad.thistory_latest_buy = none := by
    rcases hnp with hq | hb
    · exact Or.inl (not_lt.mpr hq)
    · exact Or.inr hb
  simp only [tickAsset, hch, Bool.false_eq_true, if_false, if_pos hnp2,
    no_history_iff]

/-- Witness for C6's amended statement at a concrete input: quantity 0, no
histories at all, default parameters — a BUY intent for the base amount. -/
theorem tick_noposition_amended_witness :
    tickAsset {} 99999 (AssetData.mk ⟨"Amazon", "AMZN", 0, []⟩ []) =
      some ⟨"AMZN", .BUY, 20⟩ := by
  have h := tick_noposition_amended {} 99999
    (AssetData.mk ⟨"Amazon", "AMZN", 0, []⟩ [])
    (fun lt hlt => by simp [AssetData.thistory_latest] at hlt)
    (Or.inl le_rfl)
  simpa using h

/-- Claim C5 (counterexample): price 10 at/above the upper bound 9.999,
quantity 100 (current value 1000), base amount 20, no doubling.  The claim
sizes the SELL at the base amount 20 (20 does not exceed 1000 - 1), but
the source always subtracts the $1 floor after clamping
(`max(0, round(min(value, amount) - 1.0, 2))`), emitting a SELL for 19. -/
theorem tick_sell_amount_cex :
    tickAsset
        { base_buy := 20, thresh_buy := 1 / 2, thresh_sell := 1 / 100,
          order_cooldown := 43200, history_minimum := 2,
          buy_streak_maximum := 4 }
        100000
        (AssetData.mk ⟨"Amazon", "AMZN", 100, [⟨9, 1, 0, .NONE⟩, ⟨10, 2, 0, .NONE⟩]⟩
          [⟨99 / 10, 0, 1, .BUY⟩]) =
      some ⟨"AMZN", .SELL, 19⟩ ∧ (19 : ℚ) ≠ 20 := by
  constructor
  · have hbuy : (AssetData.mk
        ⟨"Amazon", "AMZN", 100, [⟨9, 1, 0, .NONE⟩, ⟨10, 2, 0, .NONE⟩]⟩
        [⟨99 / 10, 0, 1, .BUY⟩]).thistory_latest_buy =
        some ⟨99 / 10, 0, 1, .BUY⟩ := rfl
    have hsell : (AssetData.mk
        ⟨"Amazon", "AMZN", 100, [⟨9, 1, 0, .NONE⟩, ⟨10, 2, 0, .NONE⟩]⟩
        [⟨99 / 10, 0, 1, .BUY⟩]).thistory_latest_sell = none := rfl
    norm_num [tickAsset, hbuy, hsell, Asset.phistory_min, Asset.phistory_max,
      Asset.phistory_latest, PriceDataPoint.value,
      tLower, tUpper, streakLoop, pyRound, roundHalfEven]
    simp
  · norm_num

/-- Claim C5 as amended: in the evaluate step (cooldown passed, shares
owned, a BUY fill recorded, enough history, price variance present, price
not at/below the lower bound), a current price at or above the upper bound
emits a SELL intent for `max(0, round(min(value, s) - 1.00, 2))` where `s`
is the base amount (doubled when the price is at least twice the upper
bound) and `value` is current price × quantity — the $1.00 is always
subtracted after clamping, not only when the clamp binds — and no intent
(HOLD) when that amount is 0. -/
theorem tick_sell_branch_amended (cfg : TStratConfig) (now : ℚ)
    (ad : AssetData) (amin amax acurr lb : PriceDataPoint)
    (hcool : ∀ lt, ad.thistory.getLast? = some lt →
      cfg.order_cooldown ≤ now - lt.timestamp)
    (hq : 0 < ad.asset.quantity)
    (hlb : ad.thistory_latest_buy = some lb)
    (hmin : ad.asset.phistory_min = some amin)
    (hmax : ad.asset.phistory_max = some amax)
    (hcur : ad.asset.phistory_latest = some acurr)
    (hlen : cfg.history_minimum ≤ ad.asset.phistory.length)
    (hvar : amin.value ≠ amax.value)
    (hnotlow : ¬acurr.price ≤ tLower cfg ad)
    (hup : acurr.price ≥ tUpper cfg ad) :
    tickAsset cfg now ad =
      (if max 0 (pyRound (min (acurr.price * ad.asset.quantity)
            (if acurr.price ≥ tUpper cfg ad * 2 then cfg.base_buy * 2
              else cfg.base_buy) - 1) 2) = 0 then none
      else some ⟨ad.asset.symbol, .SELL,
        max 0 (pyRound (min (acurr.price * ad.asset.quantity)
          (if acurr.price ≥ tUpper cfg ad * 2 then cfg.base_buy * 2
            else cfg.base_buy) - 1) 2)⟩) := by
  have hch : (match ad.thistory.getLast? with
      | some ltran => decide (now - ltran.timestamp < cfg.order_cooldown)
      | none => false) = false := by
    cases hlt : ad.thistory.getLast? with
    | none => rfl
    | some lt => simpa using not_lt.mpr (hcool lt hlt)
  have hshare : ¬(¬0 < ad.asset.quantity ∨ ad.thistory_latest_buy = none) := by
    push_neg
    exact ⟨hq, by simp [hlb]⟩
  have hlen2 : ¬ad.asset.phistory.length < cfg.history_minimum :=
    not_lt.mpr hlen
  simp only [tickAsset, hch, Bool.false_eq_true, if_false, if_neg hshare,
    if_neg hlen2, hmin, hmax, hcur, if_neg hvar, if_neg hnotlow, if_pos hup]

/-- Witness for C5's amended statement at a concrete input: the same
scenario as the counterexample, emitting SELL for $19. -/
theorem tick_sell_branch_amended_witness :
    tickAsset
        { base_buy := 20, thresh_buy := 1 / 2, thresh_sell := 1 / 100,
          order_cooldown := 43200, history_minimum := 2,
          buy_streak_maximum := 4 }
        100000
        (AssetData.mk ⟨"Amazon", "AMZN", 100,
            [⟨9, 1, 0, .NONE⟩, ⟨10, 2, 0, .NONE⟩]⟩
          [⟨99 / 10, 0, 1, .BUY⟩]) =
      some ⟨"AMZN", .SELL, 19⟩ := by
  have hbuy : (AssetData.mk
      ⟨"Amazon", "AMZN", 100, [⟨9, 1, 0, .NONE⟩, ⟨10, 2, 0, .NONE⟩]⟩
      [⟨99 / 10, 0, 1, .BUY⟩]).thistory_latest_buy =
      some ⟨99 / 10, 0, 1, .BUY⟩ := rfl
  have hsell : (AssetData.mk
      ⟨"Amazon", "AMZN", 100, [⟨9, 1, 0, .NONE⟩, ⟨10, 2, 0, .NONE⟩]⟩
      [⟨99 / 10, 0, 1, .BUY⟩]).thistory_latest_sell = none := rfl
  have h := tick_sell_branch_amended
    { base_buy := 20, thresh_buy := 1 / 2, thresh_sell := 1 / 100,
      order_cooldown := 43200, history_minimum := 2, buy_streak_maximum := 4 }
    100000
    (AssetData.mk ⟨"Amazon", "AMZN", 100,
        [⟨9, 1, 0, .NONE⟩, ⟨10, 2, 0, .NONE⟩]⟩
      [⟨99 / 10, 0, 1, .BUY⟩])
    ⟨9, 1, 0, .NONE⟩ ⟨10, 2, 0, .NONE⟩ ⟨10, 2, 0, .NONE⟩ ⟨99 / 10, 0, 1, .BUY⟩
    (by intro lt hlt; simp at hlt; rw [← hlt]; norm_num)
    (by norm_num) hbuy rfl rfl rfl (by norm_num)
    (by norm_num [PriceDataPoint.value])
    (by norm_num [tLower, hbuy, hsell])
    (by norm_num [tUpper, hbuy])
  rw [h]
  norm_num [tUpper, hbuy, pyRound, roundHalfEven]

/-- Lookup in the percent profile `self.pp` of `strats/perbal.py`: symbol →
target percent, stored internally as a 0-1 fraction (`pp_init` divides the
configured percent by 100). -/
def ppLookup (pp : List (String × ℚ)) (s : String) : Option ℚ :=
  (pp.find? (fun kv => kv.1 == s)).map (fun kv => kv.2)

/-- The per-asset body of the rebalancing loop of `PBStrat.tick` (lines
164-196 of `strats/perbal.py`): `should_be_p = pp[sym] / S` (KeyError when
the symbol is missing, ZeroDivisionError when `S = 0`, both `none`),
`price_diff = should_be_p * V - value`, SELL of `|price_diff|` when
negative, BUY of `|price_diff|` when positive, nothing when zero. -/
def pbOrderFor (pp : List (String × ℚ)) (S V : ℚ) (a : Asset) :
    Option (Option TradeOrder) :=
  match ppLookup pp a.symbol with
  | none => none
  | some tgt =>
    match pydiv tgt S with
    | none => none
    | some sbp =>
      let pd := sbp * V - a.value
      some (if pd < 0 then some ⟨a.symbol, .SELL, |pd|⟩
        else if pd > 0 then some ⟨a.symbol, .BUY, |pd|⟩
        else none)

/-- The whole rebalancing loop: orders collected in member order; an
exception in any iteration aborts the tick with no orders (`none`). -/
def pbEvalLoop (pp : List (String × ℚ)) (S V : ℚ) :
    List Asset → Option (List TradeOrder)
  | [] => some []
  | a :: rest =>
    match pbOrderFor pp S V a with
    | none => none
    | some o =>
      match pbEvalLoop pp S V rest with
      | none => none
      | some os =>
        some (match o with
          | some ord => ord :: os
          | none => os)

/-- The order-computing part of `PBStrat.tick` (lines 97-196): collect the
assets appearing in the percent profile into `assets_wca` (via
`AssetGroup.update` on a fresh group) while accumulating
`assets_wca_percent`; skip the tick when zero or one such asset is owned;
evaluate `assets_wca.percents()` (which raises on a zero total value); then
run the rebalancing loop against the group's total value.  The market-status
and order-cooldown early returns are upstream of this computation and are
not modelled. -/
def pbTickOrders (cap : ℕ) (pp : List (String × ℚ)) (assets : List Asset) :
    Option (List TradeOrder) :=
  let wca := assets.foldl
    (fun acc a => if (ppLookup pp a.symbol).isSome then updateAssets cap acc a
      else acc) []
  let S := assets.foldl
    (fun acc a => match ppLookup pp a.symbol with
      | some v => acc + v
      | none => acc) 0
  let V := AssetGroup.value (AssetGroup.mk "strat assets" wca)
  if wca.length = 0 ∨ wca.length = 1 then some []
  else
    match AssetGroup.percents (AssetGroup.mk "strat assets" wca) with
    | none => none
    | some _ => pbEvalLoop pp S V wca

/-- Claim C7: for every owned tracked asset the engine computes
`shouldBePercent = target / (sum of the owned tracked assets' targets)` and
`priceDiff = shouldBePercent * totalTrackedValue - assetValue`, emitting
SELL of `|priceDiff|` when negative, BUY of `|priceDiff|` when positive and
nothing when zero; and in the 50/50 scenario with assets worth $80 and $20
the engine emits SELL $30 for the first and BUY $30 for the second. -/
theorem pb_orders_spec :
    (∀ pp S V (a : Asset) (tgt : ℚ), ppLookup pp a.symbol = some tgt →
      S ≠ 0 →
      pbOrderFor pp S V a =
        some (if tgt / S * V - a.value < 0 then
            some ⟨a.symbol, .SELL, |tgt / S * V - a.value|⟩
          else if tgt / S * V - a.value > 0 then
            some ⟨a.symbol, .BUY, |tgt / S * V - a.value|⟩
          else none)) ∧
    pbTickOrders 100 [("AAA", 1 / 2), ("BBB", 1 / 2)]
        [⟨"Alpha", "AAA", 1, [⟨80, 1, 0, .NONE⟩]⟩,
          ⟨"Beta", "BBB", 1, [⟨20, 1, 0, .NONE⟩]⟩] =
      some [⟨"AAA", .SELL, 30⟩, ⟨"BBB", .BUY, 30⟩] := by
  constructor
  · intro pp S V a tgt htgt hS
    simp [pbOrderFor, htgt, pydiv, hS]
  · have hne1 : ("AAA" : String) ≠ "BBB" := by decide
    have hne2 : ("BBB" : String) ≠ "AAA" := by decide
    norm_num [pbTickOrders, pbEvalLoop, pbOrderFor, ppLookup, updateAssets,
      AssetGroup.value, AssetGroup.percents, percentsList, pydiv, Asset.value,
      appendAll, hne1, hne2]

/-- Witness for C7's universal part at a concrete input: target one half of
a total of 100 against a current value of 80 yields SELL $30. -/
theorem pb_orders_spec_witness :
    pbOrderFor [("AAA", 1 / 2)] 1 100 ⟨"Alpha", "AAA", 1, [⟨80, 1, 0, .NONE⟩]⟩ =
      some (some ⟨"AAA", .SELL, 30⟩) := by
  have h := pb_orders_spec.1 [("AAA", 1 / 2)] 1 100
    ⟨"Alpha", "AAA", 1, [⟨80, 1, 0, .NONE⟩]⟩ (1 / 2) rfl (by norm_num)
  rw [h]
  norm_num [Asset.value]
